import Mathlib

/-!
Verification of the Handcrank 2D scene-graph engine against its
natural-language specification.  Each section shallowly embeds the C++
source (`src/include/Handcrank/*.hpp`) into Lean: machine floats are
modelled as rationals, SDL maps as total functions with default `false`,
fallible operations as `Option`/pair-with-error results.
-/

namespace Handcrank

/-! ## Transform / anchor model (`RenderObject::GetTransformedRect`) -/

/-- `SDL_FRect`, with rational coordinates. -/
structure FRect where
  x : ℚ
  y : ℚ
  w : ℚ
  h : ℚ
deriving DecidableEq, Repr

/-- `RectAnchor::TOP = 0x01`. -/
def anchorTOP : Nat := 1

/-- `RectAnchor::LEFT = 0x02`. -/
def anchorLEFT : Nat := 2

/-- `RectAnchor::BOTTOM = 0x04`. -/
def anchorBOTTOM : Nat := 4

/-- `RectAnchor::RIGHT = 0x08`. -/
def anchorRIGHT : Nat := 8

/-- `RectAnchor::VCENTER = 0x16` (22 decimal, as written in the source). -/
def anchorVCENTER : Nat := 22

/-- `RectAnchor::HCENTER = 0x32` (50 decimal, as written in the source). -/
def anchorHCENTER : Nat := 50

/-- Bitwise AND computed bit by bit with explicit fuel (8 bits suffice for
the `uint8` anchor mask); structural recursion so it evaluates anywhere. -/
def bitAndFuel : Nat → Nat → Nat → Nat
  | 0, _, _ => 0
  | fuel + 1, m, n => m % 2 * (n % 2) + 2 * bitAndFuel fuel (m / 2) (n / 2)

/-- `uint8` bitwise AND. -/
def land8 (m n : Nat) : Nat := bitAndFuel 8 m n

/-- Bitwise OR with explicit fuel. -/
def bitOrFuel : Nat → Nat → Nat → Nat
  | 0, _, _ => 0
  | fuel + 1, m, n =>
    (if m % 2 = 1 ∨ n % 2 = 1 then 1 else 0) + 2 * bitOrFuel fuel (m / 2) (n / 2)

/-- `uint8` bitwise OR (`operator|` on `RectAnchor`). -/
def lor8 (m n : Nat) : Nat := bitOrFuel 8 m n

/-- The source's flag test `(anchor & flag) == flag` on the `uint8` mask. -/
def anchorHas (anchor flag : Nat) : Bool := land8 anchor flag == flag

/-- A `RenderObject` as far as `GetTransformedRect` is concerned: its local
rect, anchor mask, scale, and an optional parent (`parent` pointer). -/
inductive RObj where
  | root (rect : FRect) (anchor : Nat) (scale : ℚ)
  | child (rect : FRect) (anchor : Nat) (scale : ℚ) (parent : RObj)
deriving DecidableEq

/-- `RenderObject::GetRect` — the local (untransformed) rectangle. -/
def RObj.rect : RObj → FRect
  | .root r _ _ => r
  | .child r _ _ _ => r

/-- `RenderObject::GetAnchor`. -/
def RObj.anchor : RObj → Nat
  | .root _ a _ => a
  | .child _ a _ _ => a

/-- `RenderObject::GetScale`. -/
def RObj.scale : RObj → ℚ
  | .root _ _ s => s
  | .child _ _ s _ => s

/-- The anchor/scale part of `GetTransformedRect`: scale width and height
by the node's own scale, then shift x for HCENTER/RIGHT and y for
VCENTER/BOTTOM, exactly as in the source (lines 979–1002). -/
def anchorAdjust (r : FRect) (anchor : Nat) (scale : ℚ) : FRect :=
  let w := r.w * scale
  let h := r.h * scale
  let x :=
    if anchorHas anchor anchorHCENTER then r.x - w / 2
    else if anchorHas anchor anchorRIGHT then r.x - w
    else r.x
  let y :=
    if anchorHas anchor anchorVCENTER then r.y - h / 2
    else if anchorHas anchor anchorBOTTOM then r.y - h
    else r.y
  ⟨x, y, w, h⟩

/-- `RenderObject::GetTransformedRect` (source, lines 979–1014): anchor
adjustment, then, if a parent exists, add the parent's *local* rect origin
(`parent->GetRect()`) and multiply width/height by the parent's scale. -/
def RObj.getTransformedRect : RObj → FRect
  | .root r a s => anchorAdjust r a s
  | .child r a s p =>
    let t := anchorAdjust r a s
    ⟨t.x + p.rect.x, t.y + p.rect.y, t.w * p.scale, t.h * p.scale⟩

/-- Horizontal anchor offset as the spec words it: half the scaled width if
HCENTER is set, else the full scaled width if RIGHT is set, else zero. -/
def hAdjust (anchor : Nat) (w : ℚ) : ℚ :=
  if anchorHas anchor anchorHCENTER then w / 2
  else if anchorHas anchor anchorRIGHT then w
  else 0

/-- Vertical anchor offset: half the scaled height if VCENTER is set, else
the full scaled height if BOTTOM is set, else zero. -/
def vAdjust (anchor : Nat) (h : ℚ) : ℚ :=
  if anchorHas anchor anchorVCENTER then h / 2
  else if anchorHas anchor anchorBOTTOM then h
  else 0

/-- Written from the words of claim C1: the world rect starts from the
local rect scaled by the node's own scale, applies the anchor adjustment,
and, when a parent exists, offsets the origin by the parent's *world*-rect
origin and multiplies width/height by the parent's scale. -/
def RObj.claimWorldRect : RObj → FRect
  | .root r a s =>
    ⟨r.x - hAdjust a (r.w * s), r.y - vAdjust a (r.h * s), r.w * s, r.h * s⟩
  | .child r a s p =>
    ⟨r.x - hAdjust a (r.w * s) + (RObj.claimWorldRect p).x,
     r.y - vAdjust a (r.h * s) + (RObj.claimWorldRect p).y,
     r.w * s * p.scale, r.h * s * p.scale⟩

/-- Claim C1 as amended: identical anchor/scale computation, but when a
parent exists the origin is offset by the parent's *local* rectangle
origin (`GetRect`), not the parent's world rect. -/
def RObj.amendedWorldRect : RObj → FRect
  | .root r a s =>
    ⟨r.x - hAdjust a (r.w * s), r.y - vAdjust a (r.h * s), r.w * s, r.h * s⟩
  | .child r a s p =>
    ⟨r.x - hAdjust a (r.w * s) + p.rect.x,
     r.y - vAdjust a (r.h * s) + p.rect.y,
     r.w * s * p.scale, r.h * s * p.scale⟩

/-- A parent anchored at HCENTER whose world rect therefore differs from
its local rect, with a plain child at the origin. -/
def c1Parent : RObj := RObj.root ⟨10, 0, 100, 100⟩ anchorHCENTER 1

/-- Child of `c1Parent` with default anchor TOP|LEFT and scale 1. -/
def c1Child : RObj := RObj.child ⟨0, 0, 10, 10⟩ (lor8 anchorTOP anchorLEFT) 1 c1Parent

/-! ## Input state (`Game::HandleInput` and the query functions) -/

/-- Raw SDL events, restricted to the cases `Game::HandleInput` handles. -/
inductive RawEvent where
  | keyDown (k : Int)
  | keyUp (k : Int)
  | mouseDown (b : Nat)
  | mouseUp (b : Nat)
  | mouseMotion (x y : ℚ)
  | quitEvent
  | other
deriving DecidableEq

/-- `Game`'s input state.  The `std::unordered_map<…, bool>` tables are
modelled as total functions: an absent entry reads as `false`, matching
both `operator[]` default-insertion and the `find == end` query path. -/
structure InputState where
  keyState : Int → Bool
  keyPressedState : Int → Bool
  keyReleasedState : Int → Bool
  mouseState : Nat → Bool
  mousePressedState : Nat → Bool
  mouseReleasedState : Nat → Bool
  mouseX : ℚ
  mouseY : ℚ
  quit : Bool

/-- Input state at process start: no entry recorded in any map. -/
def initialInputState : InputState :=
  ⟨fun _ => false, fun _ => false, fun _ => false,
   fun _ => false, fun _ => false, fun _ => false, 0, 0, false⟩

/-- Pointwise map update (`map[key] = v`). -/
def setI (f : Int → Bool) (k : Int) (v : Bool) : Int → Bool :=
  fun j => if j = k then v else f j

/-- Pointwise map update for `Uint8`-indexed maps. -/
def setN (f : Nat → Bool) (b : Nat) (v : Bool) : Nat → Bool :=
  fun j => if j = b then v else f j

/-- One arm of the `switch` in `Game::HandleInput` (lines 624–675). -/
def stepEvent (s : InputState) : RawEvent → InputState
  | .keyDown k =>
    { s with keyPressedState := setI s.keyPressedState k (!s.keyState k),
             keyState := setI s.keyState k true }
  | .keyUp k =>
    { s with keyState := setI s.keyState k false,
             keyReleasedState := setI s.keyReleasedState k true }
  | .mouseDown b =>
    { s with mousePressedState := setN s.mousePressedState b (!s.mouseState b),
             mouseState := setN s.mouseState b true }
  | .mouseUp b =>
    { s with mouseState := setN s.mouseState b false,
             mouseReleasedState := setN s.mouseReleasedState b true }
  | .mouseMotion x y => { s with mouseX := x, mouseY := y }
  | .quitEvent => { s with quit := true }
  | .other => s

/-- `Game::HandleInput`: clear the pressed/released maps, then drain all
pending raw events in order. -/
def handleInput (s : InputState) (evs : List RawEvent) : InputState :=
  evs.foldl stepEvent
    { s with keyPressedState := fun _ => false,
             keyReleasedState := fun _ => false,
             mousePressedState := fun _ => false,
             mouseReleasedState := fun _ => false }

/-- Input state after a sequence of frames, each draining its own event
batch (one `HandleInput` call per `Game::Loop` iteration). -/
def runFrames (s : InputState) (frames : List (List RawEvent)) : InputState :=
  frames.foldl handleInput s

/-- `Game::IsKeyDown`. -/
def isKeyDown (s : InputState) (k : Int) : Bool := s.keyState k

/-- `Game::IsKeyPressed`. -/
def isKeyPressed (s : InputState) (k : Int) : Bool := s.keyPressedState k

/-- `Game::IsKeyReleased`. -/
def isKeyReleased (s : InputState) (k : Int) : Bool := s.keyReleasedState k

/-- `Game::IsMouseButtonDown`. -/
def isMouseButtonDown (s : InputState) (b : Nat) : Bool := s.mouseState b

/-- `Game::IsMouseButtonPressed`. -/
def isMouseButtonPressed (s : InputState) (b : Nat) : Bool :=
  s.mousePressedState b

/-- `Game::IsMouseButtonReleased`. -/
def isMouseButtonReleased (s : InputState) (b : Nat) : Bool :=
  s.mouseReleasedState b

/-- Is this event a `KEY_DOWN` for key `k`? -/
def isKeyDownEvent (k : Int) : RawEvent → Bool
  | .keyDown j => j == k
  | _ => false

/-- Is this event a `KEY_UP` for key `k`? -/
def isKeyUpEvent (k : Int) : RawEvent → Bool
  | .keyUp j => j == k
  | _ => false

/-- Does this event mention key `k` at all? -/
def touchesKey (k : Int) (e : RawEvent) : Bool :=
  isKeyDownEvent k e || isKeyUpEvent k e

/-- Does this event mention mouse button `b` at all? -/
def touchesButton (b : Nat) : RawEvent → Bool
  | .mouseDown j => j == b
  | .mouseUp j => j == b
  | _ => false

/-! ## Fixed update (`Game::FixedUpdate`) -/

/-- `Game::fixedFrameTime = 0.02`. -/
def fixedFrameTime : ℚ := 2 / 100

/-- A top-level child as `Game::FixedUpdate` sees it. -/
structure GChild where
  id : Nat
  enabled : Bool
deriving DecidableEq

/-- Ids of the enabled children, in vector order. -/
def enabledIds (children : List GChild) : List Nat :=
  (children.filter (fun c => c.enabled)).map (fun c => c.id)

/-- `Game::FixedUpdate` (lines 692–708): add the frame delta to the
accumulator; if the accumulator is *strictly greater* than the fixed step,
invoke `InternalFixedUpdate` once on every enabled top-level child and
subtract exactly one fixed step (no reset to zero).  Returns the new
accumulator and the ids of the children invoked, in order. -/
def gameFixedUpdate (acc deltaTime : ℚ) (children : List GChild) :
    ℚ × List Nat :=
  let acc2 := acc + deltaTime
  if fixedFrameTime < acc2 then (acc2 - fixedFrameTime, enabledIds children)
  else (acc2, [])

/-- Claim C8 verbatim: the invocation threshold is `accumulator ≥ step`
(greater **or equal**), with the same per-invocation decrement. -/
def c8ClaimStatement : Prop :=
  ∀ (acc dt : ℚ) (children : List GChild),
    (fixedFrameTime ≤ acc + dt →
      (gameFixedUpdate acc dt children).2 = enabledIds children ∧
      (gameFixedUpdate acc dt children).1 = acc + dt - fixedFrameTime) ∧
    (acc + dt < fixedFrameTime →
      (gameFixedUpdate acc dt children).2 = [] ∧
      (gameFixedUpdate acc dt children).1 = acc + dt)

/-! ## Creation index (`RenderObject` constructors) -/

/-- The fields of a freshly constructed `RenderObject` that the
constructors touch.  `index = none` models the member being left
uninitialised (never written). -/
structure ROFields where
  index : Option Nat
  rect : FRect
deriving DecidableEq

/-- `RenderObject::RenderObject()` (lines 767–773): `SetPosition(0,0)`,
`SetDimension(100,100)`, then `index = ++RenderObject::count`.  Takes and
returns the static counter. -/
def mkRenderObjectDefault (count : Nat) : ROFields × Nat :=
  ({ index := some (count + 1), rect := ⟨0, 0, 100, 100⟩ }, count + 1)

/-- `RenderObject(float x, float y)` (line 239): the body only calls
`SetPosition` — it does not delegate to the default constructor, so
`index` is never assigned and the static counter is not incremented. -/
def mkRenderObjectXY (x y : ℚ) (count : Nat) : ROFields × Nat :=
  ({ index := none, rect := ⟨x, y, 0, 0⟩ }, count)

/-- `RenderObject(float x, float y, float w, float h)` (lines 240–244):
only `SetRect`; `index` never assigned, counter not incremented. -/
def mkRenderObjectXYWH (x y w h : ℚ) (count : Nat) : ROFields × Nat :=
  ({ index := none, rect := ⟨x, y, w, h⟩ }, count)

/-! ## Text objects (`TextRenderObject::SetText`) -/

/-- The state of a `TextRenderObject` that `SetText` touches.  Pointers
are modelled as `Option` handles (`none` = `nullptr`; for `text`, `none`
models the never-assigned `const char *`). -/
structure TextRO where
  font : Option Nat
  text : Option String
  textSurface : Option Nat
  textTexture : Option Nat
  rect : FRect
deriving DecidableEq

/-- `TextRenderObject::SetText` (lines 97–133).  `renderText` stands for
the external `TTF_RenderText_Blended` collaborator, returning a surface
handle with its dimensions, or `none` on failure.  A thrown
`std::runtime_error` is modelled by the second component being
`some message`, the first component being the object state at the throw
point. -/
def setText (renderText : Nat → String → Option (Nat × ℚ × ℚ))
    (o : TextRO) (s : String) : TextRO × Option String :=
  match o.font with
  | none => (o, some "ERROR! Missing font reference.")
  | some f =>
    let o1 : TextRO :=
      { o with text := some s, textTexture := none, textSurface := none }
    match renderText f s with
    | none => (o1, some "ERROR! Failed to generate text surface.")
    | some (surf, w, h) =>
      ({ o1 with textSurface := some surf,
                 rect := { o1.rect with w := w, h := h },
                 textTexture := none }, none)

/-- A `TextRenderObject` with no font assigned. -/
def c9Obj : TextRO := ⟨none, none, none, none, ⟨0, 0, 0, 0⟩⟩

/-! ## Render-order sort (`Game::Render` / `RenderObject::Render`) -/

/-- A sibling node as the render sort sees it: its identity (insertion
order / creation index) and its z value. -/
structure ZChild where
  idx : Nat
  z : Int
deriving DecidableEq

/-- Nondecreasing z between two siblings (the negation of the strict
comparator passed to `std::sort`). -/
def zle (a b : ZChild) : Prop := a.z ≤ b.z

instance : IsTrans ZChild zle := ⟨fun _ _ _ h1 h2 => le_trans h1 h2⟩

instance (a b : ZChild) : Decidable (zle a b) :=
  inferInstanceAs (Decidable (a.z ≤ b.z))

/-- Postcondition of the `std::sort(children…, a->z < b->z)` call in
`Game::Render` (lines 717–719) and `RenderObject::Render` (lines
1032–1034): the children are permuted into some order that is
nondecreasing in z.  This is everything `std::sort` guarantees — it is
not a stable sort. -/
def renderSortSpec (l l2 : List ZChild) : Prop :=
  List.Perm l l2 ∧ List.Chain' zle l2

/-- Claim C4 verbatim: any outcome of the render sort keeps every pair of
equal-z siblings in their original (insertion) order. -/
def c4ClaimStatement : Prop :=
  ∀ l l2 : List ZChild, renderSortSpec l l2 →
    ∀ a b : ZChild, List.Sublist [a, b] l → a.z = b.z →
      List.Sublist [a, b] l2

/-! ## Animation / Animator (`Animator.hpp`; `Animation.hpp` is not under
`src/`, so the `Animation` primitive is modelled from spec §4.5) -/

/-- The four animation/animator states (`Animation::State`,
`Animator::State`). -/
inductive AnimState where
  | idle
  | running
  | paused
  | complete
deriving DecidableEq

/-- Modelled from the spec: the `Animation` timeline primitive
(`Animation.hpp` is missing from the source tree).  Per §3/§4.5 it
carries a state, a duration and an elapsed time. -/
structure Animation where
  state : AnimState
  duration : ℚ
  elapsed : ℚ
deriving DecidableEq

/-- Modelled from the spec: `Animation::Start` enters RUNNING from the
beginning of the timeline. -/
def Animation.start (a : Animation) : Animation :=
  { a with state := .running, elapsed := 0 }

/-- Modelled from the spec: `Animation::Tick(dt)` advances elapsed time
while RUNNING, returning the non-zero remaining duration while
`elapsed < duration` and zero once complete (the animation then becomes
COMPLETE); a non-RUNNING animation does not advance. -/
def Animation.tick (a : Animation) (dt : ℚ) : Animation × ℚ :=
  if a.state = .running then
    let e := a.elapsed + dt
    if e < a.duration then ({ a with elapsed := e }, a.duration - e)
    else ({ a with elapsed := e, state := .complete }, 0)
  else (a, 0)

/-- `Animator::Mode`. -/
inductive AnimatorMode where
  | parallel
  | sequence
deriving DecidableEq

/-- The `Animator` node (`Animator.hpp`, lines 29–38). -/
structure Animator where
  currentState : AnimState
  mode : AnimatorMode
  looping : Bool
  animations : List Animation
  currentAnimationIndex : Nat
deriving DecidableEq

/-- `Animator::StartParallel` (lines 129–137): `Start` every child, then
enter RUNNING. -/
def startParallel (an : Animator) : Animator :=
  { an with animations := an.animations.map Animation.start,
            currentState := .running }

/-- `Animator::StartSequence` (lines 139–149): `Start` the front child,
then enter RUNNING (only reached with a non-empty list). -/
def startSequence (an : Animator) : Animator :=
  match an.animations with
  | [] => { an with currentState := .running }
  | a :: rest =>
    { an with animations := a.start :: rest, currentState := .running }

/-- `Animator::Start` (lines 51–66). -/
def animatorStart (an : Animator) : Animator :=
  if an.animations.isEmpty then an
  else
    match an.mode with
    | .parallel => startParallel an
    | .sequence => startSequence an

/-- `Animator::UpdateParallel` (lines 151–175): tick every RUNNING child;
if no ticked child reports a non-zero remaining duration, restart all
children via `StartParallel` — with no check of the looping flag. -/
def updateParallel (an : Animator) (dt : ℚ) : Animator :=
  if an.currentState ≠ .running then an
  else
    let ticked := an.animations.map fun a =>
      if a.state = .running then a.tick dt else (a, 0)
    let stillRunning := ticked.any fun p => decide (p.2 ≠ 0)
    let an2 := { an with animations := ticked.map Prod.fst }
    if stillRunning then an2 else startParallel an2

/-- `Animator::UpdateSequence` (lines 177–207).  `none` models the
undefined behaviour of `animations[currentAnimationIndex]` indexing past
the end of the vector. -/
def updateSequence (an : Animator) (dt : ℚ) : Option Animator :=
  if an.currentState ≠ .running then some an
  else
    match an.animations.get? an.currentAnimationIndex with
    | none => none
    | some cur =>
      if cur.state = .running then
        let t := cur.tick dt
        let anims2 := an.animations.set an.currentAnimationIndex t.1
        if t.2 = 0 then
          let idx2 := an.currentAnimationIndex + 1
          if idx2 ≥ anims2.length then
            if an.looping then
              match anims2.get? 0 with
              | none => none
              | some a0 =>
                some { an with animations := anims2.set 0 a0.start,
                               currentAnimationIndex := 0 }
            else
              some { an with animations := anims2,
                             currentAnimationIndex := idx2 }
          else
            match anims2.get? idx2 with
            | none => none
            | some ai =>
              some { an with animations := anims2.set idx2 ai.start,
                             currentAnimationIndex := idx2 }
        else
          some { an with animations := anims2 }
      else
        some an

/-- `Animator::Update` (lines 111–126). -/
def animatorUpdate (an : Animator) (dt : ℚ) : Option Animator :=
  if an.animations.isEmpty then some an
  else
    match an.mode with
    | .parallel => some (updateParallel an dt)
    | .sequence => updateSequence an dt

/-- A RUNNING one-second animation at its start. -/
def c2Anim : Animation := ⟨.running, 1, 0⟩

/-- A RUNNING SEQUENCE animator, looping off, holding `c2Anim`, cursor at
the last (only) index. -/
def c2Animator : Animator := ⟨.running, .sequence, false, [c2Anim], 0⟩

/-! ## Destroy marking and sweep (`RenderObject::Destroy`,
`Game::DestroyChildObjects`, `RenderObject::DestroyChildObjects`) -/

/-- A scene node as the destroy machinery sees it: identity, the
`isMarkedForDestroy` flag, and the owned children. -/
inductive RTree where
  | node (id : Nat) (marked : Bool) (children : List RTree)

/-- The node's identity. -/
def RTree.rootId : RTree → Nat
  | .node i _ _ => i

/-- `RenderObject::HasBeenMarkedForDestroy`. -/
def RTree.marked : RTree → Bool
  | .node _ m _ => m

/-- The owned children sequence. -/
def RTree.children : RTree → List RTree
  | .node _ _ cs => cs

mutual

/-- Number of nodes in a tree. -/
def treeSize : RTree → Nat
  | .node _ _ cs => 1 + forestSize cs

/-- Number of nodes in a forest. -/
def forestSize : List RTree → Nat
  | [] => 0
  | t :: ts => treeSize t + forestSize ts

end

mutual

/-- All node ids of a tree, root first. -/
def treeIds : RTree → List Nat
  | .node i _ cs => i :: forestIds cs

/-- All node ids of a forest. -/
def forestIds : List RTree → List Nat
  | [] => []
  | t :: ts => treeIds t ++ forestIds ts

end

mutual

/-- No node of the tree is marked for destroy. -/
def unmarkedT : RTree → Bool
  | .node _ m cs => !m && unmarkedF cs

/-- No node of the forest is marked for destroy. -/
def unmarkedF : List RTree → Bool
  | [] => true
  | t :: ts => unmarkedT t && unmarkedF ts

end

mutual

/-- Every node of the tree is marked for destroy. -/
def allMarkedT : RTree → Bool
  | .node _ m cs => m && allMarkedF cs

/-- Every node of the forest is marked for destroy. -/
def allMarkedF : List RTree → Bool
  | [] => true
  | t :: ts => allMarkedT t && allMarkedF ts

end

mutual

/-- `RenderObject::Destroy` (lines 1136–1144): set `isMarkedForDestroy`
on the node and recurse into every child — eager subtree marking. -/
def markAllT : RTree → RTree
  | .node i _ cs => .node i true (markAllF cs)

/-- `Destroy` over a list of children. -/
def markAllF : List RTree → List RTree
  | [] => []
  | t :: ts => markAllT t :: markAllF ts

end

mutual

/-- Calling `Destroy()` on the node with id `k` inside a tree: the whole
subtree rooted at `k` is marked, everything else untouched. -/
def destroyByIdT (k : Nat) : RTree → RTree
  | .node i m cs =>
    if i = k then markAllT (.node i m cs)
    else .node i m (destroyByIdF k cs)

/-- `destroyByIdT` over a forest. -/
def destroyByIdF (k : Nat) : List RTree → List RTree
  | [] => []
  | t :: ts => destroyByIdT k t :: destroyByIdF k ts

end

mutual

/-- The subtree rooted at the node with id `k`, if present. -/
def subtreeAtT (k : Nat) : RTree → Option RTree
  | .node i m cs =>
    if i = k then some (.node i m cs) else subtreeAtF k cs

/-- First subtree rooted at id `k` in a forest. -/
def subtreeAtF (k : Nat) : List RTree → Option RTree
  | [] => none
  | t :: ts =>
    match subtreeAtT k t with
    | some s => some s
    | none => subtreeAtF k ts

end

mutual

/-- `RenderObject::DestroyChildObjects` (lines 1106–1129) as applied to a
node: sweep the node's children (the node's own flag is its parent's
business).  Returns the surviving tree and the ids passed to `OnDestroy`,
in call order. -/
def sweepT : RTree → RTree × List Nat
  | .node i m cs => (.node i m (sweepF cs).1, (sweepF cs).2)

/-- The loop body of `Game::DestroyChildObjects` (lines 732–755) /
`RenderObject::DestroyChildObjects`: for each child in order, first
recurse into its own children, then, if the child is marked, invoke
`OnDestroy` on it and erase it from the sequence. -/
def sweepF : List RTree → List RTree × List Nat
  | [] => ([], [])
  | t :: ts =>
    if (sweepT t).1.marked then
      ((sweepF ts).1, (sweepT t).2 ++ (sweepT t).1.rootId :: (sweepF ts).2)
    else ((sweepT t).1 :: (sweepF ts).1, (sweepT t).2 ++ (sweepF ts).2)

end

mutual

/-- Post-order traversal of a tree's ids (children before the root). -/
def postOrderT : RTree → List Nat
  | .node i _ cs => postOrderF cs ++ [i]

/-- Post-order traversal of a forest's ids. -/
def postOrderF : List RTree → List Nat
  | [] => []
  | t :: ts => postOrderT t ++ postOrderF ts

end

mutual

/-- All (parent id, child id) edges of a tree. -/
def edgesT : RTree → List (Nat × Nat)
  | .node i _ cs => List.map (fun c => (i, RTree.rootId c)) cs ++ edgesF cs

/-- All (parent id, child id) edges of a forest. -/
def edgesF : List RTree → List (Nat × Nat)
  | [] => []
  | t :: ts => edgesT t ++ edgesF ts

end

mutual

/-- Remove the subtree rooted at id `k` from a tree (no-op when absent). -/
def removeByIdT (k : Nat) : RTree → RTree
  | .node i m cs => .node i m (removeByIdF k cs)

/-- Remove the subtree rooted at id `k` from a forest. -/
def removeByIdF (k : Nat) : List RTree → List RTree
  | [] => []
  | t :: ts =>
    if t.rootId = k then ts else removeByIdT k t :: removeByIdF k ts

end

/-- A concrete unmarked forest: node 1 owning node 2 (which owns nodes 4
and 5) and node 3. -/
def c3Forest : List RTree :=
  [.node 1 false [.node 2 false [.node 4 false [], .node 5 false []],
                  .node 3 false []]]

/-- The subtree rooted at node 2 inside `c3Forest` (two descendants). -/
def c3Sub : RTree := .node 2 false [.node 4 false [], .node 5 false []]

end Handcrank

namespace Handcrank

/-! ## Theorems -/

/-- Claim C1 (counterexample): `GetTransformedRect` does **not** offset a
child by its parent's world-rect origin.  For a parent anchored HCENTER at
local x = 10 (world x = −40), the child's transformed x is 10, not −40. -/
theorem c1_counterexample :
    RObj.getTransformedRect c1Child ≠ RObj.claimWorldRect c1Child ∧
    (RObj.getTransformedRect c1Child).x = 10 ∧
    (RObj.claimWorldRect c1Child).x = -40 := by
  have hcode : (RObj.getTransformedRect c1Child).x = 10 := by
    norm_num [c1Child, c1Parent, RObj.getTransformedRect, RObj.rect,
      anchorAdjust, anchorHas, land8, lor8, bitAndFuel, bitOrFuel,
      anchorTOP, anchorLEFT, anchorHCENTER, anchorRIGHT, anchorVCENTER,
      anchorBOTTOM]
  have hclaim : (RObj.claimWorldRect c1Child).x = -40 := by
    norm_num [c1Child, c1Parent, RObj.claimWorldRect, RObj.rect, RObj.scale,
      hAdjust, vAdjust, anchorHas, land8, lor8, bitAndFuel, bitOrFuel,
      anchorTOP, anchorLEFT, anchorHCENTER, anchorRIGHT, anchorVCENTER,
      anchorBOTTOM]
  refine ⟨fun h => ?_, hcode, hclaim⟩
  rw [h, hclaim] at hcode
  norm_num at hcode

/-- Claim C1 (amended): for every node, `GetTransformedRect` returns the
local rectangle with width and height multiplied by the node's own scale,
x decreased by half the scaled width if HCENTER is set else by the full
scaled width if RIGHT is set, y adjusted symmetrically for VCENTER/BOTTOM,
and, when the node has a parent, the origin further offset by the parent's
**local** rectangle origin and the width/height further multiplied by the
parent's scale. -/
theorem c1_transformed_rect_amended (o : RObj) :
    o.getTransformedRect = o.amendedWorldRect := by
  cases o with
  | root r a s =>
    simp only [RObj.getTransformedRect, RObj.amendedWorldRect, anchorAdjust,
      hAdjust, vAdjust]
    split_ifs <;> simp only [FRect.mk.injEq] <;>
      refine ⟨by ring_nf, by ring_nf, by ring_nf, by ring_nf⟩
  | child r a s p =>
    simp only [RObj.getTransformedRect, RObj.amendedWorldRect, anchorAdjust,
      hAdjust, vAdjust]
    split_ifs <;> simp only [FRect.mk.injEq] <;>
      refine ⟨by ring_nf, by ring_nf, by ring_nf, by ring_nf⟩

/-- An event that does not mention key `k` leaves all three key maps
unchanged at `k`. -/
theorem stepEvent_key_untouched (k : Int) (s : InputState) (e : RawEvent)
    (h : touchesKey k e = false) :
    (stepEvent s e).keyState k = s.keyState k ∧
    (stepEvent s e).keyPressedState k = s.keyPressedState k ∧
    (stepEvent s e).keyReleasedState k = s.keyReleasedState k := by
  cases e with
  | keyDown j =>
    simp only [touchesKey, isKeyDownEvent, isKeyUpEvent, Bool.or_false,
      beq_eq_false_iff_ne, ne_eq] at h
    refine ⟨?_, ?_, ?_⟩ <;> simp [stepEvent, setI, Ne.symm h]
  | keyUp j =>
    simp only [touchesKey, isKeyDownEvent, isKeyUpEvent, Bool.false_or,
      beq_eq_false_iff_ne, ne_eq] at h
    refine ⟨?_, ?_, ?_⟩ <;> simp [stepEvent, setI, Ne.symm h]
  | mouseDown b => exact ⟨rfl, rfl, rfl⟩
  | mouseUp b => exact ⟨rfl, rfl, rfl⟩
  | mouseMotion x y => exact ⟨rfl, rfl, rfl⟩
  | quitEvent => exact ⟨rfl, rfl, rfl⟩
  | other => exact ⟨rfl, rfl, rfl⟩

/-- An event that does not mention button `b` leaves all three mouse maps
unchanged at `b`. -/
theorem stepEvent_mouse_untouched (b : Nat) (s : InputState) (e : RawEvent)
    (h : touchesButton b e = false) :
    (stepEvent s e).mouseState b = s.mouseState b ∧
    (stepEvent s e).mousePressedState b = s.mousePressedState b ∧
    (stepEvent s e).mouseReleasedState b = s.mouseReleasedState b := by
  cases e with
  | mouseDown j =>
    simp only [touchesButton, beq_eq_false_iff_ne, ne_eq] at h
    refine ⟨?_, ?_, ?_⟩ <;> simp [stepEvent, setN, Ne.symm h]
  | mouseUp j =>
    simp only [touchesButton, beq_eq_false_iff_ne, ne_eq] at h
    refine ⟨?_, ?_, ?_⟩ <;> simp [stepEvent, setN, Ne.symm h]
  | keyDown j => exact ⟨rfl, rfl, rfl⟩
  | keyUp j => exact ⟨rfl, rfl, rfl⟩
  | mouseMotion x y => exact ⟨rfl, rfl, rfl⟩
  | quitEvent => exact ⟨rfl, rfl, rfl⟩
  | other => exact ⟨rfl, rfl, rfl⟩

/-- Draining a batch of events none of which mention key `k` leaves the
key maps unchanged at `k`. -/
theorem foldl_key_untouched (k : Int) (evs : List RawEvent) :
    ∀ s : InputState, (∀ e ∈ evs, touchesKey k e = false) →
      (evs.foldl stepEvent s).keyState k = s.keyState k ∧
      (evs.foldl stepEvent s).keyPressedState k = s.keyPressedState k ∧
      (evs.foldl stepEvent s).keyReleasedState k = s.keyReleasedState k := by
  induction evs with
  | nil => exact fun s _ => ⟨rfl, rfl, rfl⟩
  | cons e rest ih =>
    intro s h
    have hstep := stepEvent_key_untouched k s e (h e (List.mem_cons_self _ _))
    have hr := ih (stepEvent s e) (fun x hx => h x (List.mem_cons_of_mem _ hx))
    rw [List.foldl_cons]
    exact ⟨hr.1.trans hstep.1, hr.2.1.trans hstep.2.1, hr.2.2.trans hstep.2.2⟩

/-- Mouse analogue of `foldl_key_untouched`. -/
theorem foldl_mouse_untouched (b : Nat) (evs : List RawEvent) :
    ∀ s : InputState, (∀ e ∈ evs, touchesButton b e = false) →
      (evs.foldl stepEvent s).mouseState b = s.mouseState b ∧
      (evs.foldl stepEvent s).mousePressedState b = s.mousePressedState b ∧
      (evs.foldl stepEvent s).mouseReleasedState b = s.mouseReleasedState b := by
  induction evs with
  | nil => exact fun s _ => ⟨rfl, rfl, rfl⟩
  | cons e rest ih =>
    intro s h
    have hstep := stepEvent_mouse_untouched b s e (h e (List.mem_cons_self _ _))
    have hr := ih (stepEvent s e) (fun x hx => h x (List.mem_cons_of_mem _ hx))
    rw [List.foldl_cons]
    exact ⟨hr.1.trans hstep.1, hr.2.1.trans hstep.2.1, hr.2.2.trans hstep.2.2⟩

/-- A `HandleInput` call whose drained events never mention key `k`
preserves the down state at `k` and leaves pressed/released cleared. -/
theorem handleInput_key_untouched (k : Int) (s : InputState)
    (evs : List RawEvent) (h : ∀ e ∈ evs, touchesKey k e = false) :
    (handleInput s evs).keyState k = s.keyState k ∧
    (handleInput s evs).keyPressedState k = false ∧
    (handleInput s evs).keyReleasedState k = false := by
  have := foldl_key_untouched k evs
    { s with keyPressedState := fun _ => false,
             keyReleasedState := fun _ => false,
             mousePressedState := fun _ => false,
             mouseReleasedState := fun _ => false } h
  exact ⟨this.1, this.2.1, this.2.2⟩

/-- Mouse analogue of `handleInput_key_untouched`. -/
theorem handleInput_mouse_untouched (b : Nat) (s : InputState)
    (evs : List RawEvent) (h : ∀ e ∈ evs, touchesButton b e = false) :
    (handleInput s evs).mouseState b = s.mouseState b ∧
    (handleInput s evs).mousePressedState b = false ∧
    (handleInput s evs).mouseReleasedState b = false := by
  have := foldl_mouse_untouched b evs
    { s with keyPressedState := fun _ => false,
             keyReleasedState := fun _ => false,
             mousePressedState := fun _ => false,
             mouseReleasedState := fun _ => false } h
  exact ⟨this.1, this.2.1, this.2.2⟩

/-- A sequence of frames none of whose events mention key `k` preserves
the down state at `k`. -/
theorem runFrames_key_untouched (k : Int) (fs : List (List RawEvent)) :
    ∀ s : InputState, (∀ f ∈ fs, ∀ e ∈ f, touchesKey k e = false) →
      (runFrames s fs).keyState k = s.keyState k := by
  induction fs with
  | nil => exact fun s _ => rfl
  | cons f rest ih =>
    intro s h
    have h1 := handleInput_key_untouched k s f (h f (List.mem_cons_self _ _))
    have h2 := ih (handleInput s f) (fun x hx => h x (List.mem_cons_of_mem _ hx))
    exact h2.trans h1.1

/-- Draining a batch with exactly one `KEY_DOWN` for `k` and no `KEY_UP`
for `k`, starting with `k` not down, sets both down and pressed at `k`. -/
theorem foldl_key_down_once (k : Int) (evs : List RawEvent) :
    ∀ s : InputState, s.keyState k = false →
      (evs.filter (isKeyDownEvent k)).length = 1 →
      (∀ e ∈ evs, isKeyUpEvent k e = false) →
      (evs.foldl stepEvent s).keyState k = true ∧
      (evs.foldl stepEvent s).keyPressedState k = true := by
  induction evs with
  | nil => intro s _ hone _; simp at hone
  | cons e rest ih =>
    intro s hks hone hup
    by_cases hd : isKeyDownEvent k e = true
    · have he : e = RawEvent.keyDown k := by
        cases e <;> simp [isKeyDownEvent] at hd
        rename_i j; simp [hd]
      subst he
      have hfil : rest.filter (isKeyDownEvent k) = [] := by
        rw [List.filter_cons_of_pos hd] at hone
        simp only [List.length_cons, Nat.add_left_cancel_iff] at hone
        exact List.length_eq_zero.mp (by omega)
      have hnone : ∀ x ∈ rest, touchesKey k x = false := by
        intro x hx
        have h1 : isKeyDownEvent k x = false := by
          have := List.filter_eq_nil_iff.mp hfil x hx
          simpa using this
        have h2 := hup x (List.mem_cons_of_mem _ hx)
        simp [touchesKey, h1, h2]
      have hstep : (stepEvent s (RawEvent.keyDown k)).keyState k = true ∧
          (stepEvent s (RawEvent.keyDown k)).keyPressedState k = true := by
        constructor <;> simp [stepEvent, setI, hks]
      have hpres := foldl_key_untouched k rest (stepEvent s (RawEvent.keyDown k)) hnone
      rw [List.foldl_cons]
      exact ⟨hpres.1.trans hstep.1, hpres.2.1.trans hstep.2⟩
    · have hd' : isKeyDownEvent k e = false := by simpa using hd
      have htouch : touchesKey k e = false := by
        simp [touchesKey, hd', hup e (List.mem_cons_self _ _)]
      have hstep := stepEvent_key_untouched k s e htouch
      rw [List.foldl_cons]
      refine ih (stepEvent s e) (hstep.1.trans hks) ?_
        (fun x hx => hup x (List.mem_cons_of_mem _ hx))
      rwa [List.filter_cons_of_neg (by simp [hd'])] at hone

/-- Claim C7: with exactly one `KEY_DOWN` raw event for key `k` (drained
in frame `fm`) and no `KEY_UP` for `k` ever, `IsKeyPressed k` is true in
the frame that drained the event and false in every subsequent frame,
while `IsKeyDown k` is true in that frame and in every subsequent frame. -/
theorem c7_key_edge (k : Int) (pre post : List (List RawEvent))
    (fm : List RawEvent)
    (hpre : ∀ f ∈ pre, ∀ e ∈ f, touchesKey k e = false)
    (hone : (fm.filter (isKeyDownEvent k)).length = 1)
    (hupfm : ∀ e ∈ fm, isKeyUpEvent k e = false)
    (hpost : ∀ f ∈ post, ∀ e ∈ f, touchesKey k e = false) :
    (isKeyPressed (runFrames initialInputState (pre ++ [fm])) k = true ∧
     isKeyDown (runFrames initialInputState (pre ++ [fm])) k = true) ∧
    (∀ post1 f post2, post = post1 ++ f :: post2 →
      isKeyPressed
        (runFrames initialInputState ((pre ++ [fm]) ++ post1 ++ [f])) k
        = false ∧
      isKeyDown
        (runFrames initialInputState ((pre ++ [fm]) ++ post1 ++ [f])) k
        = true) := by
  have hA : (runFrames initialInputState pre).keyState k = false :=
    runFrames_key_untouched k pre initialInputState hpre
  have hsplit : runFrames initialInputState (pre ++ [fm]) =
      handleInput (runFrames initialInputState pre) fm := by
    simp [runFrames, List.foldl_append]
  have hB : (runFrames initialInputState (pre ++ [fm])).keyState k = true ∧
      (runFrames initialInputState (pre ++ [fm])).keyPressedState k = true := by
    rw [hsplit]
    exact foldl_key_down_once k fm _ hA hone hupfm
  refine ⟨⟨hB.2, hB.1⟩, ?_⟩
  intro post1 f post2 hdecomp
  have hpost1 : ∀ g ∈ post1, ∀ e ∈ g, touchesKey k e = false := by
    intro g hg; exact hpost g (by rw [hdecomp]; exact List.mem_append_left _ hg)
  have hf : ∀ e ∈ f, touchesKey k e = false :=
    hpost f (by rw [hdecomp]; exact List.mem_append_right _ (List.mem_cons_self _ _))
  have hsplit2 : runFrames initialInputState ((pre ++ [fm]) ++ post1 ++ [f]) =
      handleInput
        (runFrames (runFrames initialInputState (pre ++ [fm])) post1) f := by
    simp [runFrames, List.foldl_append]
  have hC : (runFrames (runFrames initialInputState (pre ++ [fm]))
      post1).keyState k = true := by
    rw [runFrames_key_untouched k post1 _ hpost1]; exact hB.1
  have hD := handleInput_key_untouched k
    (runFrames (runFrames initialInputState (pre ++ [fm])) post1) f hf
  rw [hsplit2]
  exact ⟨hD.2.1, hD.1.trans hC⟩

/-- Witness for C7 at key 97: one `KEY_DOWN` drained in the first frame,
then an event-free frame. -/
theorem c7_key_edge_witness :
    isKeyPressed (runFrames initialInputState [[RawEvent.keyDown 97]]) 97
      = true ∧
    isKeyDown (runFrames initialInputState [[RawEvent.keyDown 97]]) 97
      = true ∧
    isKeyPressed
      (runFrames initialInputState [[RawEvent.keyDown 97], []]) 97 = false ∧
    isKeyDown
      (runFrames initialInputState [[RawEvent.keyDown 97], []]) 97 = true := by
  have h := c7_key_edge 97 [] [[]] [RawEvent.keyDown 97]
    (by intro f hf; simp at hf)
    (by rfl)
    (by intro e he; simp at he; rw [he]; rfl)
    (by intro f hf e he; simp at hf; rw [hf] at he; simp at he)
  have h2 := h.2 [] [] [] rfl
  simpa using ⟨h.1.1, h.1.2, h2.1, h2.2⟩

/-- Claim C10: for a key `k` and button `b` for which no input event was
ever recorded, all six query functions return false. -/
theorem c10_absent_reads_false (frames : List (List RawEvent)) (k : Int)
    (b : Nat)
    (hk : ∀ f ∈ frames, ∀ e ∈ f, touchesKey k e = false)
    (hb : ∀ f ∈ frames, ∀ e ∈ f, touchesButton b e = false) :
    isKeyDown (runFrames initialInputState frames) k = false ∧
    isKeyPressed (runFrames initialInputState frames) k = false ∧
    isKeyReleased (runFrames initialInputState frames) k = false ∧
    isMouseButtonDown (runFrames initialInputState frames) b = false ∧
    isMouseButtonPressed (runFrames initialInputState frames) b = false ∧
    isMouseButtonReleased (runFrames initialInputState frames) b = false := by
  induction frames using List.reverseRecOn with
  | nil => exact ⟨rfl, rfl, rfl, rfl, rfl, rfl⟩
  | append_singleton fs f ih =>
    have hk' : ∀ g ∈ fs, ∀ e ∈ g, touchesKey k e = false :=
      fun g hg => hk g (List.mem_append_left _ hg)
    have hb' : ∀ g ∈ fs, ∀ e ∈ g, touchesButton b e = false :=
      fun g hg => hb g (List.mem_append_left _ hg)
    have hkf : ∀ e ∈ f, touchesKey k e = false :=
      hk f (List.mem_append_right _ (List.mem_cons_self _ _))
    have hbf : ∀ e ∈ f, touchesButton b e = false :=
      hb f (List.mem_append_right _ (List.mem_cons_self _ _))
    have hprev := ih hk' hb'
    have hsplit : runFrames initialInputState (fs ++ [f]) =
        handleInput (runFrames initialInputState fs) f := by
      simp [runFrames, List.foldl_append]
    have hK := handleInput_key_untouched k
      (runFrames initialInputState fs) f hkf
    have hM := handleInput_mouse_untouched b
      (runFrames initialInputState fs) f hbf
    rw [hsplit]
    exact ⟨hK.1.trans hprev.1, hK.2.1, hK.2.2,
           hM.1.trans hprev.2.2.2.1, hM.2.1, hM.2.2⟩

/-- Witness for C10: two frames whose events never mention key 5 or
button 2. -/
theorem c10_absent_reads_false_witness :
    isKeyDown
      (runFrames initialInputState [[RawEvent.keyDown 9], [RawEvent.other]]) 5
      = false ∧
    isKeyPressed
      (runFrames initialInputState [[RawEvent.keyDown 9], [RawEvent.other]]) 5
      = false ∧
    isKeyReleased
      (runFrames initialInputState [[RawEvent.keyDown 9], [RawEvent.other]]) 5
      = false ∧
    isMouseButtonDown
      (runFrames initialInputState [[RawEvent.keyDown 9], [RawEvent.other]]) 2
      = false ∧
    isMouseButtonPressed
      (runFrames initialInputState [[RawEvent.keyDown 9], [RawEvent.other]]) 2
      = false ∧
    isMouseButtonReleased
      (runFrames initialInputState [[RawEvent.keyDown 9], [RawEvent.other]]) 2
      = false :=
  c10_absent_reads_false [[RawEvent.keyDown 9], [RawEvent.other]] 5 2
    (by decide) (by decide)

/-- Claim C8 (counterexample): when the accumulator lands exactly on the
fixed step (`acc + dt = 0.02`), the claim's `≥` threshold demands an
invocation, but the code's strict `>` fires nothing and keeps the whole
accumulator. -/
theorem c8_counterexample : ¬ c8ClaimStatement := by
  intro h
  have h1 := (h 0 (2 / 100) [⟨0, true⟩]).1 (by norm_num [fixedFrameTime])
  have h2 : (gameFixedUpdate 0 (2 / 100) [⟨0, true⟩]).2 = [] := by
    norm_num [gameFixedUpdate, fixedFrameTime]
  rw [h1.1] at h2
  simp [enabledIds] at h2

/-- Claim C8 (amended): each frame the fixed-update phase adds the delta
to the accumulator; whenever the accumulator is *strictly greater* than
the fixed step it invokes fixed-update on every enabled top-level node
exactly once and decrements the accumulator by exactly one fixed step
(never resetting it to zero); when the accumulator is less than or equal
to the fixed step, no node receives a fixed-update call. -/
theorem c8_fixed_update_amended (acc dt : ℚ) (children : List GChild) :
    (fixedFrameTime < acc + dt →
      (gameFixedUpdate acc dt children).2 = enabledIds children ∧
      (gameFixedUpdate acc dt children).1 = acc + dt - fixedFrameTime) ∧
    (acc + dt ≤ fixedFrameTime →
      (gameFixedUpdate acc dt children).2 = [] ∧
      (gameFixedUpdate acc dt children).1 = acc + dt) := by
  constructor
  · intro h
    simp only [gameFixedUpdate, if_pos h]
    exact ⟨trivial, trivial⟩
  · intro h
    simp only [gameFixedUpdate, if_neg (not_lt.mpr h)]
    exact ⟨trivial, trivial⟩

/-- Witness for the amended C8: one step just over the threshold fires on
the enabled child; one just at the threshold fires nothing. -/
theorem c8_fixed_update_amended_witness :
    (gameFixedUpdate 0 (3 / 100) [⟨7, true⟩, ⟨8, false⟩]).2 = [7] ∧
    (gameFixedUpdate 0 (3 / 100) [⟨7, true⟩, ⟨8, false⟩]).1 = 1 / 100 ∧
    (gameFixedUpdate 0 (2 / 100) [⟨7, true⟩, ⟨8, false⟩]).2 = [] ∧
    (gameFixedUpdate 0 (2 / 100) [⟨7, true⟩, ⟨8, false⟩]).1 = 2 / 100 := by
  have h1 := (c8_fixed_update_amended 0 (3 / 100) [⟨7, true⟩, ⟨8, false⟩]).1
    (by norm_num [fixedFrameTime])
  have h2 := (c8_fixed_update_amended 0 (2 / 100) [⟨7, true⟩, ⟨8, false⟩]).2
    (by norm_num [fixedFrameTime])
  refine ⟨?_, ?_, h2.1, by rw [h2.2]; norm_num⟩
  · rw [h1.1]; rfl
  · rw [h1.2]; norm_num [fixedFrameTime]

/-- Claim C5: the `(x,y)` and `(x,y,w,h)` constructors never assign the
creation index (the member stays uninitialised) and do not advance the
static counter, while the default constructor does both — so it is false
that every constructor assigns a fresh distinct index.  Evaluated at the
failing inputs `RenderObject(1, 2)` and `RenderObject(1, 2, 3, 4)` with
counter 5. -/
theorem c5_ctor_index_bug :
    (mkRenderObjectXY 1 2 5).1.index = none ∧
    (mkRenderObjectXY 1 2 5).2 = 5 ∧
    (mkRenderObjectXYWH 1 2 3 4 5).1.index = none ∧
    (mkRenderObjectXYWH 1 2 3 4 5).2 = 5 ∧
    (mkRenderObjectDefault 5).1.index = some 6 ∧
    (mkRenderObjectDefault 5).2 = 6 :=
  ⟨rfl, rfl, rfl, rfl, rfl, rfl⟩

/-- Claim C9: calling `SetText` with no font assigned fails explicitly
(throws, modelled as `some message`) and leaves the object — text,
surface, texture and rectangle — unchanged. -/
theorem c9_settext_no_font (renderText : Nat → String → Option (Nat × ℚ × ℚ))
    (o : TextRO) (s : String) (h : o.font = none) :
    (setText renderText o s).2 = some "ERROR! Missing font reference." ∧
    (setText renderText o s).1 = o := by
  simp [setText, h]

/-- Witness for C9 on a concrete fontless object. -/
theorem c9_settext_no_font_witness :
    (setText (fun _ _ => none) c9Obj "score").2
      = some "ERROR! Missing font reference." ∧
    (setText (fun _ _ => none) c9Obj "score").1 = c9Obj :=
  c9_settext_no_font (fun _ _ => none) c9Obj "score" rfl

/-- Claim C4 (counterexample): `std::sort` is not stable, so its contract
admits an outcome that swaps two equal-z siblings; the claimed invariant
fails for that outcome. -/
theorem c4_counterexample : ¬ c4ClaimStatement := by
  intro h
  have hspec : renderSortSpec [⟨0, 0⟩, ⟨1, 0⟩] [⟨1, 0⟩, ⟨0, 0⟩] := by
    constructor
    · decide
    · simp [List.chain'_cons, List.chain'_singleton, zle]
  have := h [⟨0, 0⟩, ⟨1, 0⟩] [⟨1, 0⟩, ⟨0, 0⟩] hspec ⟨0, 0⟩ ⟨1, 0⟩
    (by decide) rfl
  revert this
  decide

/-- Claim C4 (amended): every outcome the render sort can produce is a
permutation of the siblings (each sibling rendered exactly once) that is
nondecreasing in z — but the relative order of equal-z siblings is
unspecified, because `std::sort` is not stable. -/
theorem c4_render_order_amended (l l2 : List ZChild)
    (h : renderSortSpec l l2) :
    (∀ c : ZChild, l2.count c = l.count c) ∧
    (∀ a b : ZChild, List.Sublist [a, b] l2 → a.z ≤ b.z) := by
  constructor
  · intro c; exact (h.1.symm.count_eq c)
  · intro a b hs
    have hp : List.Pairwise zle l2 := List.chain'_iff_pairwise.mp h.2
    have h2 := List.pairwise_cons.mp (hp.sublist hs)
    exact h2.1 b (List.mem_cons_self _ _)

/-- Witness for the amended C4 on a two-element swap with distinct z. -/
theorem c4_render_order_amended_witness :
    (List.count (⟨0, 1⟩ : ZChild) [(⟨1, 0⟩ : ZChild), ⟨0, 1⟩]
      = List.count (⟨0, 1⟩ : ZChild) [(⟨0, 1⟩ : ZChild), ⟨1, 0⟩]) ∧
    ((⟨1, 0⟩ : ZChild).z ≤ (⟨0, 1⟩ : ZChild).z) := by
  have h := c4_render_order_amended [⟨0, 1⟩, ⟨1, 0⟩] [⟨1, 0⟩, ⟨0, 1⟩]
    ⟨by decide, by simp [List.chain'_cons, List.chain'_singleton, zle]⟩
  exact ⟨h.1 ⟨0, 1⟩, h.2 ⟨1, 0⟩ ⟨0, 1⟩ (by decide)⟩

/-- Claim C2: a SEQUENCE animator with looping off does **not** freeze at
the last index after its last animation completes.  Updating `c2Animator`
(single one-second animation, cursor at last index 0) with dt = 2
completes the animation and leaves the cursor at 1 = `animations.size()`,
one past the last index, with the animator still RUNNING; the next
`Update` call evaluates `animations[1]` on a one-element vector —
an out-of-bounds access (undefined behaviour), modelled as `none`. -/
theorem c2_sequence_out_of_bounds :
    animatorUpdate c2Animator 2 =
      some ⟨.running, .sequence, false, [⟨.complete, 1, 2⟩], 1⟩ ∧
    animatorUpdate ⟨.running, .sequence, false, [⟨.complete, 1, 2⟩], 1⟩ 1
      = none := by
  constructor
  · show (if c2Animator.animations.isEmpty then _ else _) = _
    norm_num [animatorUpdate, updateSequence, c2Animator, c2Anim,
      Animation.tick]
  · norm_num [animatorUpdate, updateSequence]

/-- Claim C6: a RUNNING PARALLEL animator whose children all report zero
remaining duration in the same tick restarts every child via `Start` in
that same `Update` call: immediately afterwards every child is RUNNING
from elapsed 0 (none COMPLETE), regardless of the looping flag. -/
theorem c6_parallel_auto_restart (an : Animator) (dt : ℚ)
    (hmode : an.mode = .parallel)
    (hstate : an.currentState = .running)
    (hne : an.animations ≠ [])
    (hall : ∀ a ∈ an.animations, a.state = .running → (a.tick dt).2 = 0) :
    animatorUpdate an dt = some (updateParallel an dt) ∧
    (updateParallel an dt).currentState = .running ∧
    ∀ a ∈ (updateParallel an dt).animations,
      a.state = .running ∧ a.elapsed = 0 := by
  have hdispatch : animatorUpdate an dt = some (updateParallel an dt) := by
    rw [animatorUpdate, if_neg (by simpa [List.isEmpty_iff] using hne), hmode]
  have hstill : (an.animations.map fun a =>
      if a.state = .running then a.tick dt else (a, 0)).any
        (fun p => decide (p.2 ≠ 0)) = false := by
    rw [List.any_eq_false]
    intro p hp
    obtain ⟨a, ha, rfl⟩ := List.mem_map.mp hp
    by_cases hr : a.state = .running
    · simp [hr, hall a ha hr]
    · simp [hr]
  have hpar : updateParallel an dt =
      startParallel { an with animations := (an.animations.map fun a =>
        if a.state = .running then a.tick dt else (a, 0)).map Prod.fst } := by
    rw [updateParallel, if_neg (by simp [hstate])]
    simp only [hstill, Bool.false_eq_true, if_false]
  refine ⟨hdispatch, ?_, ?_⟩
  · rw [hpar]; rfl
  · intro a ha
    rw [hpar] at ha
    simp only [startParallel, List.mem_map] at ha
    obtain ⟨b, _, rfl⟩ := ha
    exact ⟨rfl, rfl⟩

/-- Witness for C6: one RUNNING child of duration 1, ticked with dt = 2,
in a non-looping PARALLEL animator. -/
theorem c6_parallel_auto_restart_witness :
    animatorUpdate ⟨.running, .parallel, false, [⟨.running, 1, 0⟩], 0⟩ 2 =
      some (updateParallel
        ⟨.running, .parallel, false, [⟨.running, 1, 0⟩], 0⟩ 2) ∧
    (updateParallel
        ⟨.running, .parallel, false, [⟨.running, 1, 0⟩], 0⟩ 2).currentState
      = .running ∧
    ∀ a ∈ (updateParallel
        ⟨.running, .parallel, false, [⟨.running, 1, 0⟩], 0⟩ 2).animations,
      a.state = .running ∧ a.elapsed = 0 :=
  c6_parallel_auto_restart ⟨.running, .parallel, false, [⟨.running, 1, 0⟩], 0⟩
    2 rfl rfl (by simp)
    (by
      intro a ha _
      simp only [List.mem_singleton] at ha
      subst ha
      norm_num [Animation.tick])

/-- Every tree has at least one node. -/
theorem treeSize_pos (t : RTree) : 1 ≤ treeSize t := by
  cases t with
  | node i m cs => simp [treeSize]

/-- A forest of size zero is empty. -/
theorem forestSize_eq_zero {cs : List RTree} (h : forestSize cs = 0) :
    cs = [] := by
  cases cs with
  | nil => rfl
  | cons t ts =>
    exfalso
    have := treeSize_pos t
    simp [forestSize] at h
    omega

/-- The root's id is among the tree's ids. -/
theorem rootId_mem_treeIds (t : RTree) : t.rootId ∈ treeIds t := by
  cases t with
  | node i m cs => simp [treeIds, RTree.rootId]

/-- The root's id is the last entry of the post-order traversal. -/
theorem rootId_mem_postOrderT (t : RTree) : t.rootId ∈ postOrderT t := by
  cases t with
  | node i m cs => simp [postOrderT, RTree.rootId]

/-- A member tree's post-order traversal is a sublist of the forest's. -/
theorem postOrderT_sublist_postOrderF {c : RTree} :
    ∀ cs : List RTree, c ∈ cs → List.Sublist (postOrderT c) (postOrderF cs)
  | [], h => absurd h (List.not_mem_nil c)
  | t :: ts, h => by
    rcases List.mem_cons.mp h with h | h
    · subst h
      rw [postOrderF]
      exact List.sublist_append_left _ _
    · rw [postOrderF]
      exact (postOrderT_sublist_postOrderF ts h).trans
        (List.sublist_append_right _ _)

/-- Sweeping a fully unmarked forest removes nothing and fires no
`OnDestroy`. -/
theorem sweepF_unmarked :
    ∀ n, ∀ cs : List RTree, forestSize cs ≤ n → unmarkedF cs = true →
      sweepF cs = (cs, []) := by
  intro n
  induction n with
  | zero =>
    intro cs h _
    rw [forestSize_eq_zero (Nat.le_zero.mp h)]
    rfl
  | succ n ih =>
    intro cs hsz hu
    cases cs with
    | nil => rfl
    | cons t ts =>
      cases t with
      | node i m cs2 =>
        simp only [unmarkedF, unmarkedT, Bool.and_eq_true, Bool.not_eq_true']
          at hu
        have hsz2 : forestSize cs2 ≤ n ∧ forestSize ts ≤ n := by
          simp only [forestSize, treeSize] at hsz
          omega
        have h1 := ih cs2 hsz2.1 hu.1.2
        have h2 := ih ts hsz2.2 hu.2
        rw [sweepF, sweepT, h1, h2]
        simp [RTree.marked, hu.1.1]

/-- Sweeping a fully marked forest removes everything, firing `OnDestroy`
in post-order. -/
theorem sweepF_markAll :
    ∀ n, ∀ cs : List RTree, forestSize cs ≤ n →
      sweepF (markAllF cs) = ([], postOrderF cs) := by
  intro n
  induction n with
  | zero =>
    intro cs h
    rw [forestSize_eq_zero (Nat.le_zero.mp h)]
    rfl
  | succ n ih =>
    intro cs hsz
    cases cs with
    | nil => rfl
    | cons t ts =>
      cases t with
      | node i m cs2 =>
        have hsz2 : forestSize cs2 ≤ n ∧ forestSize ts ≤ n := by
          simp only [forestSize, treeSize] at hsz
          omega
        have h1 := ih cs2 hsz2.1
        have h2 := ih ts hsz2.2
        rw [markAllF, markAllT, sweepF, sweepT, h1, h2]
        simp [RTree.marked, RTree.rootId, postOrderF, postOrderT]

/-- `Destroy` on an id that is absent leaves the forest untouched. -/
theorem destroyByIdF_not_mem (k : Nat) :
    ∀ n, ∀ cs : List RTree, forestSize cs ≤ n → k ∉ forestIds cs →
      destroyByIdF k cs = cs := by
  intro n
  induction n with
  | zero =>
    intro cs h _
    rw [forestSize_eq_zero (Nat.le_zero.mp h)]
    rfl
  | succ n ih =>
    intro cs hsz hk
    cases cs with
    | nil => rfl
    | cons t ts =>
      cases t with
      | node i m cs2 =>
        simp only [forestIds, treeIds, List.mem_append, List.mem_cons,
          not_or] at hk
        have hsz2 : forestSize cs2 ≤ n ∧ forestSize ts ≤ n := by
          simp only [forestSize, treeSize] at hsz
          omega
        rw [destroyByIdF, destroyByIdT, if_neg (fun h => hk.1.1 h.symm),
          ih cs2 hsz2.1 hk.1.2, ih ts hsz2.2 hk.2]

/-- Removing an absent id leaves the forest untouched. -/
theorem removeByIdF_not_mem (k : Nat) :
    ∀ n, ∀ cs : List RTree, forestSize cs ≤ n → k ∉ forestIds cs →
      removeByIdF k cs = cs := by
  intro n
  induction n with
  | zero =>
    intro cs h _
    rw [forestSize_eq_zero (Nat.le_zero.mp h)]
    rfl
  | succ n ih =>
    intro cs hsz hk
    cases cs with
    | nil => rfl
    | cons t ts =>
      cases t with
      | node i m cs2 =>
        simp only [forestIds, treeIds, List.mem_append, List.mem_cons,
          not_or] at hk
        have hsz2 : forestSize cs2 ≤ n ∧ forestSize ts ≤ n := by
          simp only [forestSize, treeSize] at hsz
          omega
        rw [removeByIdF,
          if_neg (by simp only [RTree.rootId]; exact fun h => hk.1.1 h.symm),
          removeByIdT, ih cs2 hsz2.1 hk.1.2, ih ts hsz2.2 hk.2]

/-- If no subtree of the forest is rooted at `k`, then `k` is not among
the forest's ids. -/
theorem subtreeAtF_none_not_mem (k : Nat) :
    ∀ n, ∀ cs : List RTree, forestSize cs ≤ n → subtreeAtF k cs = none →
      k ∉ forestIds cs := by
  intro n
  induction n with
  | zero =>
    intro cs h _
    rw [forestSize_eq_zero (Nat.le_zero.mp h)]
    exact List.not_mem_nil k
  | succ n ih =>
    intro cs hsz hnone
    cases cs with
    | nil => exact List.not_mem_nil k
    | cons t ts =>
      cases t with
      | node i m cs2 =>
        have hsz2 : forestSize cs2 ≤ n ∧ forestSize ts ≤ n := by
          simp only [forestSize, treeSize] at hsz
          omega
        rw [subtreeAtF] at hnone
        rcases hmt : subtreeAtT k (.node i m cs2) with _ | s
        · simp only [hmt] at hnone
          rw [subtreeAtT] at hmt
          by_cases hik : i = k
          · rw [if_pos hik] at hmt; exact absurd hmt (by simp)
          · rw [if_neg hik] at hmt
            have h1 := ih cs2 hsz2.1 hmt
            have h2 := ih ts hsz2.2 hnone
            simp only [forestIds, treeIds, List.mem_append, List.mem_cons,
              not_or]
            exact ⟨⟨fun h => hik h.symm, h1⟩, h2⟩
        · simp only [hmt] at hnone
          exact absurd hnone (by simp)

/-- If a subtree rooted at `k` is found, `k` is among the forest's ids. -/
theorem subtreeAtF_some_mem (k : Nat) :
    ∀ n, ∀ cs : List RTree, forestSize cs ≤ n → ∀ s,
      subtreeAtF k cs = some s → k ∈ forestIds cs := by
  intro n
  induction n with
  | zero =>
    intro cs h s hs
    rw [forestSize_eq_zero (Nat.le_zero.mp h)] at hs
    exact absurd hs (by simp [subtreeAtF])
  | succ n ih =>
    intro cs hsz s hs
    cases cs with
    | nil => exact absurd hs (by simp [subtreeAtF])
    | cons t ts =>
      cases t with
      | node i m cs2 =>
        have hsz2 : forestSize cs2 ≤ n ∧ forestSize ts ≤ n := by
          simp only [forestSize, treeSize] at hsz
          omega
        rw [subtreeAtF] at hs
        rcases hmt : subtreeAtT k (.node i m cs2) with _ | s2
        · simp only [hmt] at hs
          have := ih ts hsz2.2 s hs
          simp only [forestIds, List.mem_append]
          exact Or.inr this
        · rw [subtreeAtT] at hmt
          simp only [forestIds, treeIds, List.mem_append, List.mem_cons]
          by_cases hik : i = k
          · exact Or.inl (Or.inl hik.symm)
          · rw [if_neg hik] at hmt
            exact Or.inl (Or.inr (ih cs2 hsz2.1 s2 hmt))

/-- After `Destroy`, every node of the marked copy is marked. -/
theorem allMarkedF_markAllF :
    ∀ n, ∀ cs : List RTree, forestSize cs ≤ n →
      allMarkedF (markAllF cs) = true := by
  intro n
  induction n with
  | zero =>
    intro cs h
    rw [forestSize_eq_zero (Nat.le_zero.mp h)]
    rfl
  | succ n ih =>
    intro cs hsz
    cases cs with
    | nil => rfl
    | cons t ts =>
      cases t with
      | node i m cs2 =>
        have hsz2 : forestSize cs2 ≤ n ∧ forestSize ts ≤ n := by
          simp only [forestSize, treeSize] at hsz
          omega
        rw [markAllF, markAllT, allMarkedF, allMarkedT,
          ih cs2 hsz2.1, ih ts hsz2.2]
        rfl

/-- Post-order traversal is a permutation of the forest's ids. -/
theorem postOrderF_perm_forestIds :
    ∀ n, ∀ cs : List RTree, forestSize cs ≤ n →
      List.Perm (postOrderF cs) (forestIds cs) := by
  intro n
  induction n with
  | zero =>
    intro cs h
    rw [forestSize_eq_zero (Nat.le_zero.mp h)]
    rfl
  | succ n ih =>
    intro cs hsz
    cases cs with
    | nil => rfl
    | cons t ts =>
      cases t with
      | node i m cs2 =>
        have hsz2 : forestSize cs2 ≤ n ∧ forestSize ts ≤ n := by
          simp only [forestSize, treeSize] at hsz
          omega
        rw [postOrderF, postOrderT, forestIds, treeIds]
        refine List.Perm.append ?_ (ih ts hsz2.2)
        exact (List.perm_append_singleton i (postOrderF cs2)).trans
          ((ih cs2 hsz2.1).cons i)

/-- A forest has as many ids as nodes. -/
theorem forestIds_length :
    ∀ n, ∀ cs : List RTree, forestSize cs ≤ n →
      (forestIds cs).length = forestSize cs := by
  intro n
  induction n with
  | zero =>
    intro cs h
    rw [forestSize_eq_zero (Nat.le_zero.mp h)]
    rfl
  | succ n ih =>
    intro cs hsz
    cases cs with
    | nil => rfl
    | cons t ts =>
      cases t with
      | node i m cs2 =>
        have hsz2 : forestSize cs2 ≤ n ∧ forestSize ts ≤ n := by
          simp only [forestSize, treeSize] at hsz
          omega
        rw [forestIds, treeIds, forestSize, treeSize]
        simp only [List.length_append, List.length_cons,
          ih cs2 hsz2.1, ih ts hsz2.2]
        omega

/-- `Destroy` on the node with id `k` marks exactly the subtree rooted at
`k`: looking `k` up afterwards finds that subtree fully marked. -/
theorem subtreeAtF_destroyByIdF (k : Nat) :
    ∀ n, ∀ cs : List RTree, forestSize cs ≤ n → ∀ s,
      subtreeAtF k cs = some s →
      subtreeAtF k (destroyByIdF k cs) = some (markAllT s) := by
  intro n
  induction n with
  | zero =>
    intro cs h s hs
    rw [forestSize_eq_zero (Nat.le_zero.mp h)] at hs
    exact absurd hs (by simp [subtreeAtF])
  | succ n ih =>
    intro cs hsz s hs
    cases cs with
    | nil => exact absurd hs (by simp [subtreeAtF])
    | cons t ts =>
      cases t with
      | node i m cs2 =>
        have hsz2 : forestSize cs2 ≤ n ∧ forestSize ts ≤ n := by
          simp only [forestSize, treeSize] at hsz
          omega
        rw [subtreeAtF] at hs
        rw [destroyByIdF, destroyByIdT, subtreeAtF]
        rcases hmt : subtreeAtT k (.node i m cs2) with _ | s2
        · simp only [hmt] at hs
          rw [subtreeAtT] at hmt
          by_cases hik : i = k
          · rw [if_pos hik] at hmt; exact absurd hmt (by simp)
          · rw [if_neg hik] at hmt
            rw [if_neg hik]
            have hnest : subtreeAtT k (RTree.node i m (destroyByIdF k cs2))
                = none := by
              rw [subtreeAtT, if_neg hik,
                destroyByIdF_not_mem k n cs2 hsz2.1
                  (subtreeAtF_none_not_mem k n cs2 hsz2.1 hmt)]
              exact hmt
            simp only [hnest]
            exact ih ts hsz2.2 s hs
        · simp only [hmt] at hs
          rw [subtreeAtT] at hmt
          by_cases hik : i = k
          · rw [if_pos hik] at hmt
            rw [if_pos hik]
            have hs2 : s = RTree.node i m cs2 := by
              rw [Option.some_inj] at hmt hs
              rw [← hs, ← hmt]
            subst hs2
            have : subtreeAtT k (markAllT (RTree.node i m cs2))
                = some (markAllT (RTree.node i m cs2)) := by
              rw [markAllT, subtreeAtT, if_pos hik]
            simp only [this]
          · rw [if_neg hik] at hmt
            rw [if_neg hik]
            have hs2 : s2 = s := by rwa [Option.some_inj] at hs
            subst hs2
            have hnest : subtreeAtT k (RTree.node i m (destroyByIdF k cs2))
                = some (markAllT s2) := by
              rw [subtreeAtT, if_neg hik]
              exact ih cs2 hsz2.1 s2 hmt
            simp only [hnest]

/-- In a duplicate-free forest, the ids split into the ids of the subtree
rooted at `k` and the ids of the forest with that subtree removed. -/
theorem forestIds_perm_of_subtree (k : Nat) :
    ∀ n, ∀ cs : List RTree, forestSize cs ≤ n → (forestIds cs).Nodup →
      ∀ s, subtreeAtF k cs = some s →
      List.Perm (forestIds cs) (treeIds s ++ forestIds (removeByIdF k cs)) := by
  intro n
  induction n with
  | zero =>
    intro cs h _ s hs
    rw [forestSize_eq_zero (Nat.le_zero.mp h)] at hs
    exact absurd hs (by simp [subtreeAtF])
  | succ n ih =>
    intro cs hsz hnd s hs
    cases cs with
    | nil => exact absurd hs (by simp [subtreeAtF])
    | cons t ts =>
      cases t with
      | node i m cs2 =>
        have hsz2 : forestSize cs2 ≤ n ∧ forestSize ts ≤ n := by
          simp only [forestSize, treeSize] at hsz
          omega
        have hnd2 := hnd
        rw [forestIds, List.nodup_append] at hnd2
        rw [subtreeAtF] at hs
        rcases hmt : subtreeAtT k (.node i m cs2) with _ | s2
        · -- subtree found further right, in `ts`
          simp only [hmt] at hs
          rw [subtreeAtT] at hmt
          by_cases hik : i = k
          · rw [if_pos hik] at hmt; exact absurd hmt (by simp)
          rw [if_neg hik] at hmt
          have hknot2 : k ∉ forestIds cs2 :=
            subtreeAtF_none_not_mem k n cs2 hsz2.1 hmt
          have hrem : removeByIdF k (RTree.node i m cs2 :: ts)
              = RTree.node i m cs2 :: removeByIdF k ts := by
            rw [removeByIdF,
              if_neg (by simp only [RTree.rootId]; exact fun h => hik h),
              removeByIdT, removeByIdF_not_mem k n cs2 hsz2.1 hknot2]
          rw [hrem]
          simp only [forestIds]
          have hperm := ih ts hsz2.2 hnd2.2.1 s hs
          have h2 : List.Perm
              (treeIds (RTree.node i m cs2) ++
                (treeIds s ++ forestIds (removeByIdF k ts)))
              (treeIds s ++ (treeIds (RTree.node i m cs2) ++
                forestIds (removeByIdF k ts))) := by
            rw [← List.append_assoc, ← List.append_assoc]
            exact List.perm_append_comm.append_right _
          exact (hperm.append_left _).trans h2
        · -- subtree found in the head tree
          simp only [hmt] at hs
          rw [Option.some_inj] at hs
          subst hs
          rw [subtreeAtT] at hmt
          by_cases hik : i = k
          · rw [if_pos hik] at hmt
            rw [Option.some_inj] at hmt
            rw [← hmt, removeByIdF, if_pos (by simp [RTree.rootId, hik])]
            rw [forestIds, treeIds]
          · rw [if_neg hik] at hmt
            have hkmem : k ∈ forestIds cs2 :=
              subtreeAtF_some_mem k n cs2 hsz2.1 s2 hmt
            have hknotts : k ∉ forestIds ts := fun hc =>
              hnd2.2.2 (by rw [treeIds]; exact List.mem_cons_of_mem i hkmem) hc
            have hrem : removeByIdF k (RTree.node i m cs2 :: ts)
                = RTree.node i m (removeByIdF k cs2) :: ts := by
              rw [removeByIdF,
                if_neg (by simp only [RTree.rootId]; exact fun h => hik h),
                removeByIdT, removeByIdF_not_mem k n ts hsz2.2 hknotts]
            rw [hrem, forestIds, treeIds]
            have hndcs2 : (forestIds cs2).Nodup := by
              have := hnd2.1
              rw [treeIds] at this
              exact this.of_cons
            have hperm := ih cs2 hsz2.1 hndcs2 s2 hmt
            have h1 : List.Perm (i :: forestIds cs2)
                (treeIds s2 ++ i :: forestIds (removeByIdF k cs2)) :=
              (hperm.cons i).trans List.perm_middle.symm
            have h3 := h1.append_right (forestIds ts)
            rw [List.append_assoc] at h3
            exact h3

/-- Main sweep lemma: on an initially unmarked, duplicate-free forest,
`Destroy` on node `k` followed by the sweep removes exactly the subtree
rooted at `k` and fires `OnDestroy` in that subtree's post-order. -/
theorem sweepF_destroyByIdF (k : Nat) :
    ∀ n, ∀ cs : List RTree, forestSize cs ≤ n → unmarkedF cs = true →
      (forestIds cs).Nodup → ∀ s, subtreeAtF k cs = some s →
      sweepF (destroyByIdF k cs) = (removeByIdF k cs, postOrderT s) := by
  intro n
  induction n with
  | zero =>
    intro cs h _ _ s hs
    rw [forestSize_eq_zero (Nat.le_zero.mp h)] at hs
    exact absurd hs (by simp [subtreeAtF])
  | succ n ih =>
    intro cs hsz hu hnd s hs
    cases cs with
    | nil => exact absurd hs (by simp [subtreeAtF])
    | cons t ts =>
      cases t with
      | node i m cs2 =>
        have hsz2 : forestSize cs2 ≤ n ∧ forestSize ts ≤ n := by
          simp only [forestSize, treeSize] at hsz
          omega
        simp only [unmarkedF, unmarkedT, Bool.and_eq_true, Bool.not_eq_true']
          at hu
        have hnd2 := hnd
        rw [forestIds, List.nodup_append] at hnd2
        rw [subtreeAtF] at hs
        rcases hmt : subtreeAtT k (.node i m cs2) with _ | s2
        · -- subtree in `ts`; head untouched, swept without removal
          simp only [hmt] at hs
          rw [subtreeAtT] at hmt
          by_cases hik : i = k
          · rw [if_pos hik] at hmt; exact absurd hmt (by simp)
          rw [if_neg hik] at hmt
          have hknot2 : k ∉ forestIds cs2 :=
            subtreeAtF_none_not_mem k n cs2 hsz2.1 hmt
          rw [destroyByIdF, destroyByIdT, if_neg hik,
            destroyByIdF_not_mem k n cs2 hsz2.1 hknot2]
          rw [sweepF, sweepT, sweepF_unmarked n cs2 hsz2.1 hu.1.2,
            ih ts hsz2.2 hu.2 hnd2.2.1 s hs]
          simp only [RTree.marked, hu.1.1, Bool.false_eq_true, if_false,
            List.nil_append]
          rw [removeByIdF,
            if_neg (by simp only [RTree.rootId]; exact fun h => hik h),
            removeByIdT, removeByIdF_not_mem k n cs2 hsz2.1 hknot2]
        · simp only [hmt] at hs
          rw [Option.some_inj] at hs
          subst hs
          rw [subtreeAtT] at hmt
          by_cases hik : i = k
          · -- the head tree itself is destroyed
            rw [if_pos hik] at hmt
            rw [Option.some_inj] at hmt
            have hknotts : k ∉ forestIds ts := fun hc =>
              hnd2.2.2
                (by rw [treeIds, ← hik]; exact List.mem_cons_self i _) hc
            rw [destroyByIdF, destroyByIdT, if_pos hik,
              destroyByIdF_not_mem k n ts hsz2.2 hknotts]
            rw [markAllT, sweepF, sweepT, sweepF_markAll n cs2 hsz2.1,
              sweepF_unmarked n ts hsz2.2 hu.2]
            simp only [RTree.marked, RTree.rootId, if_true]
            rw [← hmt, postOrderT]
            rw [removeByIdF, if_pos (by simp [RTree.rootId, hik])]
          · -- the destroyed subtree is inside the head's children
            rw [if_neg hik] at hmt
            have hkmem : k ∈ forestIds cs2 :=
              subtreeAtF_some_mem k n cs2 hsz2.1 s2 hmt
            have hknotts : k ∉ forestIds ts := fun hc =>
              hnd2.2.2
                (by rw [treeIds]; exact List.mem_cons_of_mem i hkmem) hc
            have hndcs2 : (forestIds cs2).Nodup := by
              have := hnd2.1
              rw [treeIds] at this
              exact this.of_cons
            rw [destroyByIdF, destroyByIdT, if_neg hik,
              destroyByIdF_not_mem k n ts hsz2.2 hknotts]
            rw [sweepF, sweepT, ih cs2 hsz2.1 hu.1.2 hndcs2 s2 hmt,
              sweepF_unmarked n ts hsz2.2 hu.2]
            simp only [RTree.marked, hu.1.1, Bool.false_eq_true, if_false,
              List.append_nil]
            rw [removeByIdF,
              if_neg (by simp only [RTree.rootId]; exact fun h => hik h),
              removeByIdT, removeByIdF_not_mem k n ts hsz2.2 hknotts]

/-- In a tree's post-order traversal, every child id appears strictly
before its parent's id: `[child, parent]` is a sublist for every edge. -/
theorem edges_sublist_postOrder :
    ∀ n, (∀ t : RTree, treeSize t ≤ n → ∀ pc ∈ edgesT t,
        List.Sublist [pc.2, pc.1] (postOrderT t)) ∧
      (∀ cs : List RTree, forestSize cs ≤ n → ∀ pc ∈ edgesF cs,
        List.Sublist [pc.2, pc.1] (postOrderF cs)) := by
  intro n
  induction n with
  | zero =>
    constructor
    · intro t ht
      exfalso
      have := treeSize_pos t
      omega
    · intro cs h pc hpc
      have hcs := forestSize_eq_zero (Nat.le_zero.mp h)
      subst hcs
      exact absurd hpc (List.not_mem_nil pc)
  | succ n ih =>
    have htree : ∀ t : RTree, treeSize t ≤ n + 1 → ∀ pc ∈ edgesT t,
        List.Sublist [pc.2, pc.1] (postOrderT t) := by
      intro t ht pc hpc
      cases t with
      | node i m cs =>
        have hsz : forestSize cs ≤ n := by
          simp only [treeSize] at ht
          omega
        rw [edgesT] at hpc
        rw [postOrderT]
        rcases List.mem_append.mp hpc with h1 | h2
        · obtain ⟨c, hc, rfl⟩ := List.mem_map.mp h1
          have hmem : c.rootId ∈ postOrderF cs :=
            (postOrderT_sublist_postOrderF cs hc).subset
              (rootId_mem_postOrderT c)
          exact (List.singleton_sublist.mpr hmem).append
            (List.Sublist.refl [i])
        · exact (ih.2 cs hsz pc h2).trans (List.sublist_append_left _ _)
    refine ⟨htree, ?_⟩
    intro cs hsz pc hpc
    cases cs with
    | nil => exact absurd hpc (List.not_mem_nil pc)
    | cons t ts =>
      have h1 : treeSize t ≤ n + 1 := by
        simp only [forestSize] at hsz
        omega
      have h2 : forestSize ts ≤ n := by
        have := treeSize_pos t
        simp only [forestSize] at hsz
        omega
      rw [edgesF] at hpc
      rw [postOrderF]
      rcases List.mem_append.mp hpc with ha | hb
      · exact (htree t h1 pc ha).trans (List.sublist_append_left _ _)
      · exact (ih.2 ts h2 pc hb).trans (List.sublist_append_right _ _)

/-- Claim C3: on an initially unmarked forest with distinct node ids,
calling `Destroy()` on the node with id `k` (subtree `s`, i.e. the node
plus its N descendants) marks the node and its entire subtree
pending-destroy immediately; the next sweep removes exactly that subtree
— `treeSize s = N + 1` nodes — leaving every other node in place, and
`OnDestroy` fires exactly once per removed node, children before
parents. -/
theorem c3_destroy_sweep (F : List RTree) (k : Nat) (s : RTree)
    (hu : unmarkedF F = true) (hnd : (forestIds F).Nodup)
    (hs : subtreeAtF k F = some s) :
    subtreeAtF k (destroyByIdF k F) = some (markAllT s) ∧
    allMarkedT (markAllT s) = true ∧
    sweepF (destroyByIdF k F) = (removeByIdF k F, postOrderT s) ∧
    forestSize (removeByIdF k F) + treeSize s = forestSize F ∧
    (∀ j ∈ treeIds s, j ∉ forestIds (removeByIdF k F)) ∧
    (∀ j ∈ forestIds F, j ∉ treeIds s → j ∈ forestIds (removeByIdF k F)) ∧
    (List.Perm (postOrderT s) (treeIds s) ∧ (postOrderT s).Nodup) ∧
    (∀ pc ∈ edgesT s, List.Sublist [pc.2, pc.1] (postOrderT s)) := by
  have hperm := forestIds_perm_of_subtree k (forestSize F) F le_rfl hnd s hs
  have hnd' : (treeIds s ++ forestIds (removeByIdF k F)).Nodup :=
    hperm.nodup hnd
  have hnd'' := hnd'
  rw [List.nodup_append] at hnd''
  have hlenF := forestIds_length (forestSize F) F le_rfl
  have hlenR := forestIds_length (forestSize (removeByIdF k F))
    (removeByIdF k F) le_rfl
  have hlenS : (treeIds s).length = treeSize s := by
    cases s with
    | node i m cs2 =>
      rw [treeIds, treeSize, List.length_cons,
        forestIds_length (forestSize cs2) cs2 le_rfl]
      omega
  have hppo : List.Perm (postOrderT s) (treeIds s) := by
    cases s with
    | node i m cs2 =>
      rw [postOrderT, treeIds]
      exact (List.perm_append_singleton i (postOrderF cs2)).trans
        ((postOrderF_perm_forestIds (forestSize cs2) cs2 le_rfl).cons i)
  refine ⟨?_, ?_, ?_, ?_, ?_, ?_, ⟨hppo, ?_⟩, ?_⟩
  · exact subtreeAtF_destroyByIdF k (forestSize F) F le_rfl s hs
  · cases s with
    | node i m cs2 =>
      rw [markAllT, allMarkedT, allMarkedF_markAllF (forestSize cs2) cs2 le_rfl]
      rfl
  · exact sweepF_destroyByIdF k (forestSize F) F le_rfl hu hnd s hs
  · have := hperm.length_eq
    rw [List.length_append, hlenF, hlenR, hlenS] at this
    omega
  · exact fun j hj hc => hnd''.2.2 hj hc
  · intro j hj hjs
    have := hperm.subset hj
    rcases List.mem_append.mp this with h | h
    · exact absurd h hjs
    · exact h
  · exact hppo.symm.nodup hnd''.1
  · exact (edges_sublist_postOrder (treeSize s)).1 s le_rfl

/-- Witness for C3 on `c3Forest`: destroying node 2 (descendants 4, 5)
removes exactly those three nodes, firing `OnDestroy` as `[4, 5, 2]`. -/
theorem c3_destroy_sweep_witness :
    subtreeAtF 2 (destroyByIdF 2 c3Forest) = some (markAllT c3Sub) ∧
    allMarkedT (markAllT c3Sub) = true ∧
    sweepF (destroyByIdF 2 c3Forest) =
      (removeByIdF 2 c3Forest, postOrderT c3Sub) ∧
    forestSize (removeByIdF 2 c3Forest) + treeSize c3Sub
      = forestSize c3Forest ∧
    (∀ j ∈ treeIds c3Sub, j ∉ forestIds (removeByIdF 2 c3Forest)) ∧
    (∀ j ∈ forestIds c3Forest, j ∉ treeIds c3Sub →
      j ∈ forestIds (removeByIdF 2 c3Forest)) ∧
    (List.Perm (postOrderT c3Sub) (treeIds c3Sub) ∧
      (postOrderT c3Sub).Nodup) ∧
    (∀ pc ∈ edgesT c3Sub, List.Sublist [pc.2, pc.1] (postOrderT c3Sub)) :=
  c3_destroy_sweep c3Forest 2 c3Sub rfl (by decide) rfl

end Handcrank
